import Mathlib

/-!
Verification development for the git learning game.

The embedding follows the source of the browser app: the repository
adapter (`src/services/gitService.ts`), the level/game store
(`src/store/gameStore.ts`), the level catalog (`src/data/levels.ts`) and
the graph model builder (`src/components/GitGraph.tsx`).  The underlying
version-control engine (isomorphic-git over a virtual filesystem) is an
external, opaque collaborator of the program; its operations are modelled
here as pure functions on an explicit repository state, following the
adapter contracts the specification states for it (init idempotent on an
existing repository, checkout failing on a missing ref, log bounded by a
depth limit, three-way status classification).
-/

namespace GitGame

/-- Association-list lookup (first entry with the key wins; `alistSet`
replaces, so keys are unique and first = only). Models a JS `Map`. -/
def alistGet {α : Type} (m : List (String × α)) (k : String) : Option α :=
  (m.find? (fun e => e.1 = k)).map (fun e => e.2)

/-- Association-list update: replace the entry with key `k`, or append. -/
def alistSet {α : Type} : List (String × α) → String → α → List (String × α)
  | [], k, v => [(k, v)]
  | (k0, v0) :: rest, k, v =>
    if k0 = k then (k, v) :: rest else (k0, v0) :: alistSet rest k v

/-- JS `String.prototype.startsWith`. -/
def jsStartsWith (s p : String) : Bool :=
  p.data.isPrefixOf s.data

/-- JS `String.prototype.includes`: the needle occurs as a contiguous
substring. -/
def jsIncludes (s sub : String) : Bool :=
  s.data.tails.any (fun t => sub.data.isPrefixOf t)

/-- Split on a single separator character, JS `split(sep)` (keeps empty
segments, `[""]` for the empty string). -/
def splitCharAux (sep : Char) : List Char → List Char → List String
  | [], cur => [String.mk cur.reverse]
  | c :: cs, cur =>
    if c = sep then String.mk cur.reverse :: splitCharAux sep cs []
    else splitCharAux sep cs (c :: cur)

/-- JS `s.split(sep)` for a one-character separator. -/
def jsSplitChar (s : String) (sep : Char) : List String :=
  splitCharAux sep s.data []

/-- Strip leading and trailing whitespace, JS `trim()`. -/
def trimWs (l : List Char) : List Char :=
  ((l.dropWhile Char.isWhitespace).reverse.dropWhile Char.isWhitespace).reverse

/-- Split into maximal non-whitespace runs (JS `split(/\s+/)` on a
trimmed string). -/
def wsSplitAux : List Char → List Char → List String
  | [], cur => if cur.isEmpty then [] else [String.mk cur.reverse]
  | c :: cs, cur =>
    if c.isWhitespace then
      if cur.isEmpty then wsSplitAux cs [] else String.mk cur.reverse :: wsSplitAux cs []
    else wsSplitAux cs (c :: cur)

/-- The first `n` characters, JS `substring(0, n)`. -/
def charTake (s : String) (n : Nat) : String :=
  String.mk (s.data.take n)

/-- Join with a separator (JS `Array.prototype.join`). -/
def joinSep (sep : String) : List String → String
  | [] => ""
  | [x] => x
  | x :: xs => x ++ sep ++ joinSep sep xs

/-- JS `parseInt` in base 10 on an already-extracted token: leading
whitespace skipped, an optional sign, then a maximal run of decimal
digits; no digits means `NaN`, modelled as `none`. -/
def jsParseInt (s : String) : Option Int :=
  let chars := s.data.dropWhile Char.isWhitespace
  let (neg, rest) :=
    match chars with
    | '-' :: cs => (true, cs)
    | '+' :: cs => (false, cs)
    | cs => (false, cs)
  let digits := rest.takeWhile Char.isDigit
  if digits.isEmpty then none
  else
    let n := digits.foldl (fun acc c => 10 * acc + (c.toNat - '0'.toNat)) 0
    some (if neg then -(n : Int) else (n : Int))

/-- The commit record the adapter exposes (`GitCommit` in `types.ts`). -/
structure GitCommit where
  oid : String
  message : String
  parent : List String
  authorName : String
  authorEmail : String
  timestamp : Nat
  deriving Repr, DecidableEq

/-- Ref classification (`GitRef.type` in `types.ts`). -/
inductive RefType where
  | branch
  | tag
  | headPtr
  deriving Repr, DecidableEq

/-- A named ref paired with its resolved commit id (`GitRef` in `types.ts`). -/
structure GitRef where
  name : String
  oid : String
  type : RefType
  deriving Repr, DecidableEq

/-- A flat file tree: path to textual content. -/
abbrev Tree : Type := List (String × String)

/-- State of the in-browser repository: the virtual filesystem working
tree plus the version-control metadata living under `.git` (commit
objects with their snapshots, branch refs, HEAD, the index). -/
structure Repo where
  initialized : Bool
  objects : List GitCommit
  trees : List (String × Tree)
  branches : List (String × String)
  headRef : Option String
  headDetachedOid : Option String
  stageTree : Tree
  workTree : Tree
  deriving Repr, DecidableEq

/-- A repository directory before any `git init`. -/
def Repo.empty : Repo :=
  { initialized := false
    objects := []
    trees := []
    branches := []
    headRef := none
    headDetachedOid := none
    stageTree := []
    workTree := [] }

/-- The commit id HEAD currently resolves to, if any. -/
def headOid (r : Repo) : Option String :=
  match r.headRef with
  | some b => alistGet r.branches b
  | none => r.headDetachedOid

/-- The snapshot of the commit HEAD points at (empty for an unborn HEAD). -/
def headTree (r : Repo) : Tree :=
  match headOid r with
  | none => []
  | some h => (alistGet r.trees h).getD []

/-- Engine `git.init` with default branch `main`: creates the repository
when the directory has none, and is a no-op on an existing repository
(existing refs, objects and index are untouched). -/
def engineInit (r : Repo) : Repo :=
  if r.initialized then r
  else { Repo.empty with initialized := true, headRef := some "main", workTree := r.workTree }

/-- `GitService.init`: `mkdir` the root (ignored if present), engine
init, then two `setConfig` calls (configuration is not observable here). -/
def serviceInit (r : Repo) : Repo :=
  engineInit r

/-- `GitService.resetRepo`: delete every entry of the repository root
except `.git`, then call `init` again.  The metadata under `.git`
(objects, refs, HEAD, index) is deliberately not touched by the loop. -/
def resetRepo (r : Repo) : Repo :=
  serviceInit { r with workTree := [] }

/-- Engine `git.add`: stage the working-tree content of `path`; fails
with a not-found error when the path is absent from the working tree. -/
def gitAdd (r : Repo) (path : String) : Except String Repo :=
  match alistGet r.workTree path with
  | none => .error ("Could not find " ++ path ++ ".")
  | some c => .ok { r with stageTree := alistSet r.stageTree path c }

/-- Engine `git.commit`: snapshot the index as a new commit whose parent
is the current HEAD commit, then advance HEAD (the active branch, or the
detached pointer).  Fresh ids and timestamps are derived from the number
of existing objects. -/
def gitCommitOp (r : Repo) (message : String) : String × Repo :=
  let oid := "o" ++ Nat.repr r.objects.length
  let c : GitCommit :=
    { oid := oid
      message := message
      parent := (headOid r).toList
      authorName := "Git Learner"
      authorEmail := "learner@ohmygit.org"
      timestamp := r.objects.length }
  let r1 := { r with
    objects := c :: r.objects
    trees := alistSet r.trees oid r.stageTree }
  match r.headRef with
  | some b => (oid, { r1 with branches := alistSet r1.branches b oid })
  | none => (oid, { r1 with headDetachedOid := some oid })

/-- Engine `git.branch`: create a branch at the current HEAD commit. -/
def gitBranch (r : Repo) (name : String) : Except String Repo :=
  match headOid r with
  | none => .error "Could not resolve HEAD to a commit."
  | some h =>
    match alistGet r.branches name with
    | some _ => .error ("Failed to create branch " ++ name ++ ": branch already exists.")
    | none => .ok { r with branches := alistSet r.branches name h }

/-- Engine `git.checkout` of a branch ref: switch HEAD to the branch and
restore its snapshot; a ref that does not exist raises a not-found error
(`Could not find <ref>.`). -/
def gitCheckout (r : Repo) (ref : String) : Except String Repo :=
  match alistGet r.branches ref with
  | none => .error ("Could not find " ++ ref ++ ".")
  | some oid =>
    let t := (alistGet r.trees oid).getD []
    .ok { r with headRef := some ref, headDetachedOid := none, stageTree := t, workTree := t }

/-- Engine `git.currentBranch`: the attached branch name, absent when
HEAD is detached. -/
def engineCurrentBranch (r : Repo) : Option String :=
  r.headRef

/-- `GitService.currentBranch`: `(await git.currentBranch(...)) || 'main'`
(a JS falsy result, absent or empty, falls back to `main`). -/
def serviceCurrentBranch (r : Repo) : String :=
  match engineCurrentBranch r with
  | none => "main"
  | some b => if b = "" then "main" else b

/-- `GitService.listBranches`. -/
def listBranches (r : Repo) : List String :=
  r.branches.map (fun e => e.1)

/-- Look a commit object up in the object store. -/
def lookupCommit (objects : List GitCommit) (oid : String) : Option GitCommit :=
  objects.find? (fun c => c.oid = oid)

/-- Pick the frontier commit with the greatest timestamp (the engine log
walks commits newest-first); returns it with the remaining frontier. -/
def pickNewest : List GitCommit → Option (GitCommit × List GitCommit)
  | [] => none
  | c :: rest =>
    match pickNewest rest with
    | none => some (c, [])
    | some (m, others) =>
      if c.timestamp < m.timestamp then some (m, c :: others) else some (c, rest)

/-- Depth-bounded walk of the commit graph from a frontier, emitting
commits newest-first; the fuel is the depth limit, so at most `fuel`
commits are emitted.  Parents already emitted or already queued are not
re-queued. -/
def gitLogAux (objects : List GitCommit) :
    Nat → List GitCommit → List String → List GitCommit
  | 0, _, _ => []
  | fuel + 1, frontier, visited =>
    match pickNewest frontier with
    | none => []
    | some (c, rest) =>
      if visited.contains c.oid then gitLogAux objects fuel rest visited
      else
        let parents := (c.parent.filterMap (lookupCommit objects)).filter
          (fun pc => ¬ visited.contains pc.oid ∧ ¬ rest.any (fun q => q.oid = pc.oid)
            ∧ pc.oid ≠ c.oid)
        c :: gitLogAux objects fuel (rest ++ parents.eraseDups) (c.oid :: visited)

/-- `GitService.log`: commits reachable from HEAD, newest first, with the
engine call made at `depth: 100`; any failure (for example an empty,
just-initialized repository with an unborn HEAD) yields `[]`. -/
def gitLog (r : Repo) : List GitCommit :=
  match headOid r with
  | none => []
  | some h => gitLogAux r.objects 100 (lookupCommit r.objects h).toList []

/-- Fueled collection of every commit id reachable from a frontier
(no depth cutoff as long as the fuel covers the object store). -/
def reachableAux (objects : List GitCommit) :
    Nat → List String → List String → List String
  | 0, _, visited => visited
  | _ + 1, [], visited => visited
  | fuel + 1, o :: rest, visited =>
    if visited.contains o then reachableAux objects fuel rest visited
    else
      match lookupCommit objects o with
      | none => reachableAux objects fuel rest visited
      | some c => reachableAux objects fuel (c.parent ++ rest) (o :: visited)

/-- Number of commits reachable from the current position, with no depth
cutoff (the quantity the specification phrases win conditions in). -/
def reachableCount (r : Repo) : Nat :=
  match headOid r with
  | none => 0
  | some h =>
    (reachableAux r.objects ((r.objects.length + 1) * (r.objects.length + 1)) [h] []).length

/-- One row of the engine status matrix: `[filepath, head, workdir, stage]`. -/
structure StatusRow where
  filepath : String
  head : Nat
  workdir : Nat
  stage : Nat
  deriving Repr, DecidableEq

/-- Every path known to HEAD, the index, or the working tree. -/
def statusPaths (r : Repo) : List String :=
  ((headTree r).map (fun e => e.1) ++ r.stageTree.map (fun e => e.1)
    ++ r.workTree.map (fun e => e.1)).dedup

/-- Engine status codes for one path: head 0/1 = absent/present,
workdir 0/1/2 = absent/same as head/different, stage 0/1/2/3 = absent/
same as head/same as workdir/different from both. -/
def statusRow (r : Repo) (p : String) : StatusRow :=
  let h := alistGet (headTree r) p
  let w := alistGet r.workTree p
  let st := alistGet r.stageTree p
  { filepath := p
    head := match h with | none => 0 | some _ => 1
    workdir := match w with | none => 0 | some wc => if h = some wc then 1 else 2
    stage := match st with
      | none => 0
      | some sc => if h = some sc then 1 else if w = some sc then 2 else 3 }

/-- `GitService.status`: the engine `statusMatrix` over all known paths. -/
def statusMatrix (r : Repo) : List StatusRow :=
  (statusPaths r).map (statusRow r)

/-- `GitService.writeFile` (creates or overwrites the working file). -/
def writeFile (r : Repo) (path content : String) : Repo :=
  { r with workTree := alistSet r.workTree path content }

/-- A stash entry (`StashEntry` in `gitService.ts`). -/
structure StashEntry where
  id : String
  message : String
  files : List (String × String)
  timestamp : Nat
  deriving Repr, DecidableEq

/-- The mutable state of the `GitService` singleton that the claims
observe: the repository plus the in-memory stash stack (the simulated
remotes and the current directory play no part in any property below). -/
structure ServiceState where
  repo : Repo
  stashStack : List StashEntry
  deriving Repr, DecidableEq

/-- `GitService.writeFile` lifted to the service state. -/
def writeFileS (s : ServiceState) (path content : String) : ServiceState :=
  { s with repo := writeFile s.repo path content }

/-- `GitService.stashApply`: an index at or past the stack length returns
a reference error and changes nothing; otherwise the chosen snapshot is
written back into the working directory (the entry stays on the stack)
and a `Changes not staged` listing is returned. -/
def stashApply (s : ServiceState) (index : Nat) : String × ServiceState :=
  if s.stashStack.length ≤ index then
    ("error: stash@\x7b" ++ Nat.repr index ++ "\x7d is not a valid reference", s)
  else
    match s.stashStack[index]? with
    | none => ("error: stash@\x7b" ++ Nat.repr index ++ "\x7d is not a valid reference", s)
    | some st =>
      let s1 := st.files.foldl (fun acc f => writeFileS acc f.1 f.2) s
      ("On " ++ serviceCurrentBranch s1.repo ++ "\nChanges not staged for commit:\n"
        ++ joinSep "\n" (st.files.map (fun f => "\t" ++ f.1)), s1)

/-- `GitService.stashPop`: apply, then remove the entry from the stack
only when the apply result is not an error string. -/
def stashPop (s : ServiceState) (index : Nat) : String × ServiceState :=
  let result := stashApply s index
  if jsStartsWith result.1 "error:" then result
  else (result.1, { result.2 with stashStack := result.2.stashStack.eraseIdx index })

/-! ## The command interpreter (`GitService.executeCommand`)

Only the subcommand cases the properties below exercise are embedded:
`add`, `commit` and `checkout`, plus the empty-command guards and the
unknown-command default.  The remaining cases of the source switch
(branch, log, status, stash, merge, remotes, unix utilities, ...) are
independent of these and are not modelled; no theorem below evaluates
the interpreter on them. -/

/-- `command.trim().split(/\s+/)`: whitespace tokenization of a command
line (an all-whitespace line gives the JS singleton `[""]`). -/
def jsTokenize (command : String) : List String :=
  let t := trimWs command.data
  if t.isEmpty then [""]
  else wsSplitAux t []

/-- `args.slice(i+1).join(' ').replace(/^["<squote>]|["<squote>]$/g, '')`:
join the words after the message flag and strip one leading and one
trailing quote character. -/
def stripQuoteEnds (s : String) : String :=
  let l := s.data
  let l := match l with
    | c :: cs => if c = '"' ∨ c = '\x27' then cs else l
    | [] => l
  let l := match l.reverse with
    | c :: cs => if c = '"' ∨ c = '\x27' then cs.reverse else l
    | [] => l
  String.mk l

/-- The `case 'commit'` body: a `-m` flag followed by a (truthy) token is
required; the message is the joined tail with outer quotes stripped. -/
def execCommit (args : List String) (s : ServiceState) : String × ServiceState :=
  match args.findIdx? (fun a => a = "-m") with
  | some i =>
    if args.getD (i + 1) "" ≠ "" then
      let message := stripQuoteEnds (joinSep " " (args.drop (i + 1)))
      let (sha, r1) := gitCommitOp s.repo message
      ("[" ++ serviceCurrentBranch r1 ++ " " ++ charTake sha 7 ++ "] " ++ message,
        { s with repo := r1 })
    else ("Error: commit message required (-m flag)", s)
  | none => ("Error: commit message required (-m flag)", s)

/-- Stage a list of paths one by one (the loop inside `add .`); a failing
`git.add` aborts the loop, carrying the repository as mutated so far
(earlier stagings persist, as they do across a thrown JS exception). -/
def addAll : List String → Repo → Except (String × Repo) Repo
  | [], r => .ok r
  | p :: ps, r =>
    match gitAdd r p with
    | .ok r2 => addAll ps r2
    | .error m => .error (m, r)

/-- The loop body of the `case 'add'` branch: a `.` argument stages every
path whose status row is untracked (`head === 0 && workdir !== 0`) and
returns immediately; other arguments are staged individually. -/
def execAddLoop (allArgs : List String) :
    List String → ServiceState → String × ServiceState
  | [], s => ("Added " ++ joinSep ", " allArgs, s)
  | f :: rest, s =>
    if f = "." then
      let untracked := (statusMatrix s.repo).filter
        (fun row => row.head = 0 ∧ row.workdir ≠ 0)
      match addAll (untracked.map (fun row => row.filepath)) s.repo with
      | .ok r => ("Added all files", { s with repo := r })
      | .error (m, r) => ("Error: " ++ m, { s with repo := r })
    else
      match gitAdd s.repo f with
      | .ok r => execAddLoop allArgs rest { s with repo := r }
      | .error m => ("Error: " ++ m, s)

/-- The `case 'add'` body. -/
def execAdd (args : List String) (s : ServiceState) : String × ServiceState :=
  if args.length = 0 then ("Nothing specified, nothing added.", s)
  else execAddLoop args args s

/-- The `case 'checkout'` body: `-b <name>` creates then switches (two
adapter calls); otherwise a plain switch.  An engine error is caught by
the surrounding `try`/`catch` and surfaces as `Error: <message>`, with
any mutation made before the throw kept. -/
def execCheckout (args : List String) (s : ServiceState) : String × ServiceState :=
  if args.getD 0 "" = "-b" ∧ args.getD 1 "" ≠ "" then
    match gitBranch s.repo (args.getD 1 "") with
    | .error m => ("Error: " ++ m, s)
    | .ok r1 =>
      match gitCheckout r1 (args.getD 1 "") with
      | .error m => ("Error: " ++ m, { s with repo := r1 })
      | .ok r2 =>
        ("Switched to a new branch \x27" ++ args.getD 1 "" ++ "\x27", { s with repo := r2 })
  else
    match gitCheckout s.repo (args.getD 0 "") with
    | .error m => ("Error: " ++ m, s)
    | .ok r2 => ("Switched to branch \x27" ++ args.getD 0 "" ++ "\x27", { s with repo := r2 })

/-- `GitService.executeCommand`: tokenize, strip an optional `git`
prefix token, dispatch on the subcommand.  All failures are caught and
returned as `Error:` strings; nothing is thrown past this boundary. -/
def executeCommand (command : String) (s : ServiceState) : String × ServiceState :=
  let parts := jsTokenize command
  let isGit := parts.getD 0 "" = "git"
  let gitCommand := if isGit then parts.getD 1 "" else parts.getD 0 ""
  let args := if isGit then parts.drop 2 else parts.drop 1
  if isGit ∧ gitCommand = "" then
    ("usage: git <command> [<args>]\n\nType \"help\" for available commands.", s)
  else if gitCommand = "" then
    ("Type \"help\" for available commands.", s)
  else
    match gitCommand with
    | "add" => execAdd args s
    | "commit" => execCommit args s
    | "checkout" => execCheckout args s
    | _ =>
      ("Command not found: " ++ gitCommand ++ "\nType \x27help\x27 for available commands.", s)

/-! ## The level engine (`gameStore.ts`, `levels.ts`) -/

/-- The win-condition strings of the ten authored levels, in catalog
order (`src/data/levels.ts`). -/
def levelsWinConditions : List String :=
  ["hasCommits:2", "hasCommits:2", "hasBranches:2", "currentBranch:feature",
   "merged:feature", "always", "always", "always", "always", "always"]

/-- `checkWinCondition` of the game store, evaluated against the
refreshed commit list, ref list and the current branch reported by the
service. -/
def checkWinCondition (condition : String) (commits : List GitCommit)
    (refs : List GitRef) (currentBranchValue : String) : Bool :=
  if condition = "always" then true
  else if jsStartsWith condition "hasCommits:" then
    match jsParseInt ((jsSplitChar condition ':').getD 1 "") with
    | none => false
    | some required => (commits.length : Int) ≥ required
  else if jsStartsWith condition "hasBranches:" then
    match jsParseInt ((jsSplitChar condition ':').getD 1 "") with
    | none => false
    | some required =>
      let branches := refs.filter (fun r => r.type = RefType.branch ∨ r.type = RefType.headPtr)
      (branches.length : Int) ≥ required
  else if jsStartsWith condition "currentBranch:" then
    currentBranchValue = (jsSplitChar condition ':').getD 1 ""
  else false

/-- The cross-level mutable game progress of the store. -/
structure GameState where
  currentLevel : Nat
  completedLevels : List Nat
  initializedLevels : List Nat
  isLevelComplete : Bool
  deriving Repr, DecidableEq

/-- The synchronous part of `setCurrentLevel`: record the new index and
clear the completion flag (the asynchronous init/refresh continuation
never touches `currentLevel` again). -/
def setCurrentLevelSync (level : Nat) (s : GameState) : GameState :=
  { s with currentLevel := level, isLevelComplete := false }

/-- `nextLevel` of the game store: bail out unless the completion flag is
set; otherwise advance when a next level exists. -/
def nextLevel (s : GameState) : GameState :=
  if !s.isLevelComplete then s
  else if s.currentLevel < levelsWinConditions.length - 1 then
    setCurrentLevelSync (s.currentLevel + 1) s
  else s

/-! ## The graph model builder (`GitGraph.tsx`) -/

/-- One rendered commit node. -/
structure GraphNode where
  oid : String
  message : String
  x : Int
  y : Int
  branch : Nat
  refs : List GitRef
  deriving Repr, DecidableEq

/-- One step of the lane-assignment scan: look the first known ref lane
up (defaulting to `0`), and when that yields `0` and the commit carries
refs, hand out `nextLane` for the first ref (the component treats a
looked-up lane `0` as unassigned, a quirk kept here).  Returns the lane
for this commit together with the updated map and counter. -/
def laneStep (lanes : List (String × Nat)) (nextLane : Nat) (commitRefs : List GitRef) :
    Nat × List (String × Nat) × Nat :=
  let lane := (commitRefs.findSome? (fun ref => alistGet lanes ref.name)).getD 0
  if lane = 0 then
    match commitRefs with
    | [] => (lane, lanes, nextLane)
    | r0 :: _ => (nextLane, alistSet lanes r0.name nextLane, nextLane + 1)
  else (lane, lanes, nextLane)

/-- Lane assignment and node construction, scanning commits in log order
and threading the `branchLanes` map and the `nextLane` counter. -/
def buildNodesAux (refs : List GitRef) :
    List GitCommit → Nat → List (String × Nat) → Nat → List GraphNode
  | [], _, _, _ => []
  | c :: cs, index, lanes, nextLane =>
    let commitRefs := refs.filter (fun ref => ref.oid = c.oid)
    let step := laneStep lanes nextLane commitRefs
    { oid := c.oid
      message := c.message
      x := 100 + (step.1 : Int) * 60
      y := 80 + (index : Int) * 60
      branch := step.1
      refs := commitRefs } :: buildNodesAux refs cs (index + 1) step.2.1 step.2.2

/-- The node list of the graph. -/
def buildNodes (commits : List GitCommit) (refs : List GitRef) : List GraphNode :=
  buildNodesAux refs commits 0 [] 0

/-- The `commitMap` the component fills while building nodes: oid to node. -/
def commitMapOf (nodes : List GraphNode) : List (String × GraphNode) :=
  nodes.foldl (fun m n => alistSet m n.oid n) []

/-- An edge of the graph, as the (child oid, parent oid) pair of the two
node objects it connects. -/
structure GraphLink where
  source : String
  target : String
  deriving Repr, DecidableEq

/-- Link construction: one edge per (commit, parent) pair whose parent id
is found in `commitMap`; missing parents produce no edge. -/
def buildLinks (commits : List GitCommit) (cmap : List (String × GraphNode)) :
    List GraphLink :=
  commits.flatMap (fun c =>
    c.parent.filterMap (fun parentOid =>
      (alistGet cmap parentOid).map (fun pn => { source := c.oid, target := pn.oid })))

/-- The full graph model of a (commits, refs) input. -/
def buildGraph (commits : List GitCommit) (refs : List GitRef) :
    List GraphNode × List GraphLink :=
  let nodes := buildNodes commits refs
  (nodes, buildLinks commits (commitMapOf nodes))

/-- `GitService.getRefs`: every branch with its resolved commit id,
classified `HEAD` when it is the current branch and `branch` otherwise. -/
def getRefs (r : Repo) : List GitRef :=
  r.branches.map (fun e =>
    { name := e.1
      oid := e.2
      type := if e.1 = serviceCurrentBranch r then RefType.headPtr else RefType.branch })

/-! ## Concrete states used by counterexamples and witnesses -/

/-- The service right after `init()` on a fresh virtual filesystem. -/
def demo0 : ServiceState := { repo := serviceInit Repo.empty, stashStack := [] }

/-- `demo0` after the first setup write (`echo "..." > glass`). -/
def demo1 : ServiceState := writeFileS demo0 "glass" "The glass is full of water."

/-- `demo1` after `git add glass`. -/
def demo2 : ServiceState := (executeCommand "git add glass" demo1).2

/-- `demo2` after `git commit -m first`: one commit on `main`. -/
def demo3 : ServiceState := (executeCommand "git commit -m first" demo2).2

/-- `demo3` after editing the committed file: `glass` is now tracked and
modified but not staged (status row `(1, 2, 1)`). -/
def demo4 : ServiceState := writeFileS demo3 "glass" "empty"

/-- `demo3` with HEAD detached from any branch. -/
def detachedRepo : Repo :=
  { demo3.repo with headRef := none, headDetachedOid := some "o0" }

/-- A linear history of `n` commits `c0 ← c1 ← ... ← c(n-1)`, newest
first as the object store keeps them. -/
def chainObjects (n : Nat) : List GitCommit :=
  (List.range n).reverse.map (fun i =>
    { oid := "c" ++ Nat.repr i
      message := "m"
      parent := if i = 0 then [] else ["c" ++ Nat.repr (i - 1)]
      authorName := "Git Learner"
      authorEmail := "learner@ohmygit.org"
      timestamp := i })

/-- A repository whose `main` holds a linear history of `n` commits. -/
def chainRepo (n : Nat) : Repo :=
  { initialized := true
    objects := chainObjects n
    trees := []
    branches := [("main", "c" ++ Nat.repr (n - 1))]
    headRef := some "main"
    headDetachedOid := none
    stageTree := []
    workTree := [] }

/-- A service state holding one stash entry, for the stash witness. -/
def stashState1 : ServiceState :=
  { repo := demo3.repo
    stashStack := [{ id := "stash@\x7b0\x7d", message := "WIP on main"
                     files := [("glass", "wip content")], timestamp := 5 }] }

/-- Two commits `c1 ← c0` for the graph-builder witness. -/
def twoCommits : List GitCommit :=
  [{ oid := "c1", message := "second", parent := ["c0"]
     authorName := "Git Learner", authorEmail := "learner@ohmygit.org", timestamp := 1 },
   { oid := "c0", message := "first", parent := []
     authorName := "Git Learner", authorEmail := "learner@ohmygit.org", timestamp := 0 }]

/-! ## Shared lemmas -/

theorem isPrefixOf_append_self {α : Type} [DecidableEq α] (l t : List α) :
    l.isPrefixOf (l ++ t) = true := by
  induction l with
  | nil => simp [List.isPrefixOf]
  | cons a as ih => simp [List.isPrefixOf, ih]

theorem jsStartsWith_of_data (s p : String) (h : ∃ t, s.data = p.data ++ t) :
    jsStartsWith s p = true := by
  obtain ⟨t, ht⟩ := h
  unfold jsStartsWith
  rw [ht]
  exact isPrefixOf_append_self p.data t

theorem alistGet_set_self {α : Type} (m : List (String × α)) (k : String) (v : α) :
    alistGet (alistSet m k v) k = some v := by
  induction m with
  | nil => simp [alistSet, alistGet]
  | cons e rest ih =>
    by_cases he : e.1 = k
    · simp [alistSet, he, alistGet]
    · simp only [alistSet]
      rw [if_neg (by exact he)]
      simpa [alistGet, List.find?, he] using ih

theorem alistGet_set_ne {α : Type} (m : List (String × α)) (k q : String) (v : α)
    (h : q ≠ k) : alistGet (alistSet m k v) q = alistGet m q := by
  have hkq : decide (k = q) = false := decide_eq_false (fun hh => h hh.symm)
  induction m with
  | nil => simp [alistSet, alistGet, List.find?, hkq]
  | cons e rest ih =>
    by_cases he : e.1 = k
    · simp only [alistSet, if_pos he, alistGet, List.find?, he, hkq]
    · simp only [alistSet, if_neg he, alistGet, List.find?]
      by_cases hq : e.1 = q
      · simp [hq]
      · rw [show decide (e.1 = q) = false from decide_eq_false hq]
        exact ih

theorem alistGet_isSome_iff {α : Type} (m : List (String × α)) (k : String) :
    (alistGet m k).isSome = true ↔ k ∈ m.map (fun e => e.1) := by
  unfold alistGet
  rw [Option.isSome_map', List.find?_isSome]
  constructor
  · rintro ⟨e, he, hp⟩
    exact List.mem_map.mpr ⟨e, he, by simpa using hp⟩
  · rintro hk
    obtain ⟨e, he, hp⟩ := List.mem_map.mp hk
    exact ⟨e, he, by simpa using hp⟩

theorem alistGet_eq_some {α : Type} (m : List (String × α)) (k : String) (v : α)
    (h : alistGet m k = some v) : (k, v) ∈ m := by
  unfold alistGet at h
  rw [Option.map_eq_some'] at h
  obtain ⟨e, he, hv⟩ := h
  have h1 : e.1 = k := by simpa using List.find?_some he
  have h2 : e ∈ m := List.mem_of_find?_eq_some he
  have : e = (k, v) := by
    cases e
    simp_all
  rwa [this] at h2

theorem writeFileS_stash (s : ServiceState) (p c : String) :
    (writeFileS s p c).stashStack = s.stashStack := rfl

theorem foldl_writeFileS_stash (files : List (String × String)) (s : ServiceState) :
    (files.foldl (fun acc f => writeFileS acc f.1 f.2) s).stashStack = s.stashStack := by
  induction files generalizing s with
  | nil => rfl
  | cons f fs ih => simpa [writeFileS] using ih (writeFileS s f.1 f.2)

theorem stashApply_stack (s : ServiceState) (i : Nat) :
    (stashApply s i).2.stashStack = s.stashStack := by
  unfold stashApply
  split
  · rfl
  · split
    · rfl
    · simp only
      exact foldl_writeFileS_stash ..

theorem gitLogAux_length_le (objects : List GitCommit) (fuel : Nat)
    (frontier : List GitCommit) (visited : List String) :
    (gitLogAux objects fuel frontier visited).length ≤ fuel := by
  induction fuel generalizing frontier visited with
  | zero => simp [gitLogAux]
  | succ n ih =>
    rw [gitLogAux]
    cases hp : pickNewest frontier with
    | none => simp
    | some cr =>
      by_cases hv : visited.contains cr.1.oid
      · simp only [hv, if_true]
        exact le_trans (ih ..) (Nat.le_succ n)
      · simp only [hv, if_false, List.length_cons]
        exact Nat.succ_le_succ (ih ..)

theorem gitLog_length_le (r : Repo) : (gitLog r).length ≤ 100 := by
  unfold gitLog
  cases headOid r with
  | none => simp
  | some h => exact gitLogAux_length_le ..

/-! ## Claim theorems -/

/-- Claim C2: `nextLevel()` is a no-op whenever the completion flag for
the active level is false — iterating it any number of times leaves the
state (in particular the current level index) unchanged — and it
advances the index by exactly one when the flag is true and a next level
exists, while doing nothing when the active level is the last one. -/
theorem nextLevel_gated :
    (∀ (s : GameState) (n : Nat), s.isLevelComplete = false →
      Nat.iterate nextLevel n s = s)
    ∧ (∀ s : GameState, s.isLevelComplete = true →
      s.currentLevel < levelsWinConditions.length - 1 →
      (nextLevel s).currentLevel = s.currentLevel + 1)
    ∧ (∀ s : GameState, s.isLevelComplete = true →
      ¬ s.currentLevel < levelsWinConditions.length - 1 →
      nextLevel s = s) := by
  have hstay : ∀ s : GameState, s.isLevelComplete = false → nextLevel s = s := by
    intro s hs
    simp [nextLevel, hs]
  refine ⟨?_, ?_, ?_⟩
  · intro s n hs
    induction n with
    | zero => rfl
    | succ m ih => rw [Function.iterate_succ_apply, hstay s hs, ih]
  · intro s hs hlt
    simp [nextLevel, hs, hlt, setCurrentLevelSync]
  · intro s hs hlt
    simp [nextLevel, hs, hlt]

/-- Witness for C2 at concrete states: five iterations with the flag
down stay at level 1; with the flag up the index moves from 1 to 2; at
the last level (index 9 of the ten-level catalog) nothing moves. -/
theorem nextLevel_gated_witness :
    Nat.iterate nextLevel 5 ⟨1, [0], [0, 1], false⟩ = (⟨1, [0], [0, 1], false⟩ : GameState)
    ∧ (nextLevel ⟨1, [0, 1], [0, 1], true⟩).currentLevel = 2
    ∧ nextLevel ⟨9, [], [], true⟩ = (⟨9, [], [], true⟩ : GameState) :=
  ⟨nextLevel_gated.1 ⟨1, [0], [0, 1], false⟩ 5 rfl,
   nextLevel_gated.2.1 ⟨1, [0, 1], [0, 1], true⟩ rfl (by decide),
   nextLevel_gated.2.2 ⟨9, [], [], true⟩ rfl (by decide)⟩

/-- Claim C5: a win-condition string that is not `always` and does not
start with one of the three recognized kinds evaluates to `false` on
every (commits, refs, current branch) state. -/
theorem winCondition_unrecognized_false (cond : String) (commits : List GitCommit)
    (refs : List GitRef) (cur : String)
    (h1 : cond ≠ "always")
    (h2 : jsStartsWith cond "hasCommits:" = false)
    (h3 : jsStartsWith cond "hasBranches:" = false)
    (h4 : jsStartsWith cond "currentBranch:" = false) :
    checkWinCondition cond commits refs cur = false := by
  simp [checkWinCondition, h1, h2, h3, h4]

/-- Witness for C5 at the authored `merged:feature` condition (level 5 of
the catalog) against the one-commit demo state. -/
theorem winCondition_unrecognized_false_witness :
    checkWinCondition "merged:feature" (gitLog demo3.repo) (getRefs demo3.repo)
      (serviceCurrentBranch demo3.repo) = false :=
  winCondition_unrecognized_false "merged:feature" (gitLog demo3.repo)
    (getRefs demo3.repo) (serviceCurrentBranch demo3.repo)
    (by decide) (by decide) (by decide) (by decide)

/-- Claim C10: `currentBranch()` never reports an empty or absent
branch: when the engine reports no current branch (detached HEAD) the
service answers the default branch name `main`, and consequently a
`currentBranch:main` win condition evaluates true on such a state. -/
theorem currentBranch_fallback :
    (∀ r : Repo, serviceCurrentBranch r ≠ "")
    ∧ (∀ r : Repo, engineCurrentBranch r = none → serviceCurrentBranch r = "main")
    ∧ (∀ (r : Repo) (commits : List GitCommit) (refs : List GitRef),
      engineCurrentBranch r = none →
      checkWinCondition "currentBranch:main" commits refs (serviceCurrentBranch r) = true) := by
  have hmain : ∀ r : Repo, engineCurrentBranch r = none → serviceCurrentBranch r = "main" := by
    intro r hr
    simp [serviceCurrentBranch, hr]
  refine ⟨?_, hmain, ?_⟩
  · intro r
    unfold serviceCurrentBranch
    cases engineCurrentBranch r with
    | none => decide
    | some b =>
      by_cases hb : b = ""
      · simp [hb]
      · simp [hb]
  · intro r commits refs hr
    rw [hmain r hr]
    rfl

/-- Witness for C10: the detached demo repository (HEAD on a bare commit
id, no branch) still reports `main` and satisfies `currentBranch:main`. -/
theorem currentBranch_fallback_witness :
    serviceCurrentBranch detachedRepo = "main"
    ∧ checkWinCondition "currentBranch:main" (gitLog detachedRepo) (getRefs detachedRepo)
      (serviceCurrentBranch detachedRepo) = true :=
  ⟨currentBranch_fallback.2.1 detachedRepo rfl,
   currentBranch_fallback.2.2 detachedRepo (gitLog detachedRepo) (getRefs detachedRepo) rfl⟩

/-- Claim C9: popping a stash index at or past the stack length returns
the `is not a valid reference` error and leaves the whole service state
(stack included) unchanged; and in general, whenever the apply step
reports an error, `stashPop` removes nothing from the stack. -/
theorem stashPop_out_of_range (s : ServiceState) (i : Nat)
    (h : s.stashStack.length ≤ i) :
    stashPop s i = ("error: stash@\x7b" ++ Nat.repr i ++ "\x7d is not a valid reference", s)
    ∧ (∀ (s2 : ServiceState) (i2 : Nat),
      jsStartsWith (stashApply s2 i2).1 "error:" = true →
      (stashPop s2 i2).2.stashStack = s2.stashStack) := by
  have happly : stashApply s i
      = ("error: stash@\x7b" ++ Nat.repr i ++ "\x7d is not a valid reference", s) := by
    unfold stashApply
    rw [if_pos h]
  have hsw : jsStartsWith
      ("error: stash@\x7b" ++ Nat.repr i ++ "\x7d is not a valid reference") "error:" = true := by
    refine jsStartsWith_of_data _ _
      ⟨" stash@\x7b".data ++ ((Nat.repr i).data ++ "\x7d is not a valid reference".data), ?_⟩
    rw [String.data_append, String.data_append]
    rw [show ("error: stash@\x7b").data = "error:".data ++ " stash@\x7b".data from by decide]
    simp [List.append_assoc]
  constructor
  · unfold stashPop
    rw [happly]
    simp [hsw]
  · intro s2 i2 hsw2
    unfold stashPop
    simp only [hsw2, if_true]
    exact stashApply_stack s2 i2

/-- Witness for C9: index 3 on a one-entry stash stack. -/
theorem stashPop_out_of_range_witness :
    stashState1.stashStack.length ≤ 3
    ∧ stashPop stashState1 3
      = ("error: stash@\x7b" ++ Nat.repr 3 ++ "\x7d is not a valid reference", stashState1) :=
  ⟨by decide, (stashPop_out_of_range stashState1 3 (by decide)).1⟩

/-- Claim C7: a commit command with no `-m` flag, or with `-m` as the
last token, returns the `commit message required` error, creates no
commit, and leaves the log unchanged; `git commit -m` parses to exactly
that argument list. -/
theorem commit_requires_message (s : ServiceState) (args : List String)
    (h : args.findIdx? (fun a => a = "-m") = none
      ∨ ∃ i, args.findIdx? (fun a => a = "-m") = some i ∧ args.getD (i + 1) "" = "") :
    execCommit args s = ("Error: commit message required (-m flag)", s)
    ∧ gitLog (execCommit args s).2.repo = gitLog s.repo
    ∧ executeCommand "git commit -m" s = execCommit ["-m"] s := by
  have hmain : execCommit args s = ("Error: commit message required (-m flag)", s) := by
    unfold execCommit
    rcases h with hnone | ⟨i, hi, hempty⟩
    · rw [hnone]
    · rw [hi]
      exact if_neg (fun hc => hc hempty)
  exact ⟨hmain, by rw [hmain], rfl⟩

/-- Witness for C7: `git commit -m` with nothing after the flag, on the
one-commit demo state. -/
theorem commit_requires_message_witness :
    execCommit ["-m"] demo3 = ("Error: commit message required (-m flag)", demo3)
    ∧ gitLog (execCommit ["-m"] demo3).2.repo = gitLog demo3.repo
    ∧ executeCommand "git commit -m" demo3 = execCommit ["-m"] demo3 :=
  commit_requires_message demo3 ["-m"] (Or.inr ⟨0, by decide, by decide⟩)

/-- Counterexample for C4: checking out a nonexistent ref through the
interpreter yields the raw engine message wrapped as `Error: ...`; the
response contains neither a `does not exist` nor a `create` hint. -/
theorem checkout_missing_hint_counterexample :
    (executeCommand "git checkout nonexistent" demo3).1 = "Error: Could not find nonexistent."
    ∧ (executeCommand "git checkout nonexistent" demo3).2 = demo3
    ∧ jsIncludes (executeCommand "git checkout nonexistent" demo3).1 "does not exist" = false
    ∧ jsIncludes (executeCommand "git checkout nonexistent" demo3).1 "create" = false := by
  decide

/-- Claim C4 (amended): for every checkout of a nonexistent ref (no
create flag), the interpreter catches the engine error and returns it as
an `Error: <engine message>` string with the state unchanged — nothing
is thrown past the interpreter, but the text is the raw engine message,
not a `does not exist, create it first` hint. -/
theorem checkout_missing_raw_error (s : ServiceState) (ref : String)
    (h2 : alistGet s.repo.branches ref = none) :
    execCheckout [ref] s = ("Error: " ++ ("Could not find " ++ ref ++ "."), s) := by
  unfold execCheckout
  rw [if_neg (by simp)]
  show (match gitCheckout s.repo ref with
    | .error m => ("Error: " ++ m, s)
    | .ok r2 => ("Switched to branch \x27" ++ ref ++ "\x27", { s with repo := r2 })) = _
  unfold gitCheckout
  rw [h2]

/-- Witness for C4 at the concrete missing ref `nonexistent`. -/
theorem checkout_missing_raw_error_witness :
    execCheckout ["nonexistent"] demo3
      = ("Error: " ++ ("Could not find " ++ "nonexistent" ++ "."), demo3) :=
  checkout_missing_raw_error demo3 "nonexistent" (by decide)

/-- Claim C1 (divergence at the failing input): after one commit,
`resetRepo()` leaves the old commit visible in `log()` and the old
branch list intact, while `init()` alone on a fresh filesystem has an
empty log — the reset state is not the init state.  The second part of
the claim, that two consecutive resets agree, does hold here. -/
theorem resetRepo_keeps_history :
    (gitLog (resetRepo demo3.repo)).length = 1
    ∧ gitLog (serviceInit Repo.empty) = []
    ∧ listBranches (resetRepo demo3.repo) = listBranches demo3.repo
    ∧ resetRepo demo3.repo ≠ serviceInit Repo.empty
    ∧ resetRepo (resetRepo demo3.repo) = resetRepo demo3.repo := by
  decide

theorem statusRow_head_eq_zero (r : Repo) (q : String) :
    (statusRow r q).head = 0 ↔ alistGet (headTree r) q = none := by
  cases h : alistGet (headTree r) q with
  | none => simp [statusRow, h]
  | some v => simp [statusRow, h]

theorem statusRow_workdir_ne_zero (r : Repo) (q : String) :
    (statusRow r q).workdir ≠ 0 ↔ (alistGet r.workTree q).isSome = true := by
  cases h : alistGet r.workTree q with
  | none => simp [statusRow, h]
  | some v =>
    simp only [statusRow, h]
    constructor
    · intro
      rfl
    · intro _ hc
      split at hc <;> simp_all

theorem mem_statusPaths_of_work (r : Repo) (q : String)
    (h : (alistGet r.workTree q).isSome = true) : q ∈ statusPaths r := by
  unfold statusPaths
  rw [List.mem_dedup, List.append_assoc, List.mem_append]
  right
  rw [List.mem_append]
  right
  exact (alistGet_isSome_iff r.workTree q).mp h

theorem untracked_mem (r : Repo) (q : String) :
    q ∈ ((statusMatrix r).filter
        (fun row => row.head = 0 ∧ row.workdir ≠ 0)).map (fun row => row.filepath)
    ↔ alistGet (headTree r) q = none ∧ (alistGet r.workTree q).isSome = true := by
  rw [List.mem_map]
  constructor
  · rintro ⟨row, hrow, hfp⟩
    rw [List.mem_filter] at hrow
    obtain ⟨hmem, hpred⟩ := hrow
    unfold statusMatrix at hmem
    rw [List.mem_map] at hmem
    obtain ⟨q0, _, hrow0⟩ := hmem
    have hq0 : q0 = q := by
      rw [← hfp, ← hrow0]
      rfl
    subst hq0
    subst hrow0
    simp only [decide_eq_true_eq] at hpred
    exact ⟨(statusRow_head_eq_zero r q0).mp hpred.1,
      (statusRow_workdir_ne_zero r q0).mp hpred.2⟩
  · rintro ⟨hhead, hwork⟩
    refine ⟨statusRow r q, ?_, rfl⟩
    rw [List.mem_filter]
    constructor
    · unfold statusMatrix
      rw [List.mem_map]
      exact ⟨q, mem_statusPaths_of_work r q hwork, rfl⟩
    · simp only [decide_eq_true_eq]
      exact ⟨(statusRow_head_eq_zero r q).mpr hhead,
        (statusRow_workdir_ne_zero r q).mpr hwork⟩

theorem addAll_ok (ps : List String) (r : Repo)
    (hps : ∀ p ∈ ps, (alistGet r.workTree p).isSome = true) :
    ∃ r2, addAll ps r = .ok r2
      ∧ r2.workTree = r.workTree
      ∧ ∀ q, alistGet r2.stageTree q
          = if q ∈ ps then alistGet r.workTree q else alistGet r.stageTree q := by
  induction ps generalizing r with
  | nil => exact ⟨r, rfl, rfl, by simp⟩
  | cons p ps ih =>
    obtain ⟨c, hc⟩ := Option.isSome_iff_exists.mp (hps p (by simp))
    have hstep : gitAdd r p = .ok { r with stageTree := alistSet r.stageTree p c } := by
      unfold gitAdd
      rw [hc]
    obtain ⟨r2, hok, hw, hst⟩ :=
      ih { r with stageTree := alistSet r.stageTree p c }
        (fun q hq => hps q (List.mem_cons_of_mem p hq))
    refine ⟨r2, ?_, hw, ?_⟩
    · unfold addAll
      rw [hstep]
      exact hok
    · intro q
      rw [hst q]
      by_cases hqps : q ∈ ps
      · simp [hqps]
      · by_cases hqp : q = p
        · subst hqp
          simp [hqps, alistGet_set_self, hc]
        · simp only [if_neg hqps, List.mem_cons]
          rw [if_neg (by tauto)]
          exact alistGet_set_ne r.stageTree p q c hqp

/-- Counterexample for C3: `glass` is tracked and modified but not
staged (status row `(1, 2, 1)`) in `demo4`; `git add .` answers
`Added all files` yet leaves its status row exactly as it was — the
modified path was not staged. -/
theorem addDot_skips_modified_counterexample :
    statusRow demo4.repo "glass" = { filepath := "glass", head := 1, workdir := 2, stage := 1 }
    ∧ (executeCommand "git add ." demo4).1 = "Added all files"
    ∧ statusRow (executeCommand "git add ." demo4).2.repo "glass"
      = { filepath := "glass", head := 1, workdir := 2, stage := 1 } := by
  decide

/-- Claim C3 (amended): the wildcard add stages exactly the untracked
paths of the status matrix (`head = 0`, `workdir ≠ 0`): it always
answers `Added all files`, leaves the working tree alone, copies every
untracked path's working content into the index, and leaves the staged
entry of every other path (in particular every tracked-but-modified
file) unchanged. -/
theorem addDot_stages_untracked (s : ServiceState) (p : String) :
    (execAdd ["."] s).1 = "Added all files"
    ∧ (execAdd ["."] s).2.repo.workTree = s.repo.workTree
    ∧ (alistGet (headTree s.repo) p = none → (alistGet s.repo.workTree p).isSome = true →
        alistGet (execAdd ["."] s).2.repo.stageTree p = alistGet s.repo.workTree p)
    ∧ (¬ (alistGet (headTree s.repo) p = none ∧ (alistGet s.repo.workTree p).isSome = true) →
        alistGet (execAdd ["."] s).2.repo.stageTree p = alistGet s.repo.stageTree p) := by
  obtain ⟨r2, hok, hw, hst⟩ := addAll_ok
    (((statusMatrix s.repo).filter
      (fun row => row.head = 0 ∧ row.workdir ≠ 0)).map (fun row => row.filepath))
    s.repo
    (fun q hq => ((untracked_mem s.repo q).mp hq).2)
  have hexec : execAdd ["."] s = ("Added all files", { s with repo := r2 }) := by
    unfold execAdd
    rw [if_neg (by decide)]
    unfold execAddLoop
    rw [if_pos rfl]
    simp only [hok]
  rw [hexec]
  refine ⟨rfl, hw, ?_, ?_⟩
  · intro hhead hwork
    have hmem := (untracked_mem s.repo p).mpr ⟨hhead, hwork⟩
    rw [hst p, if_pos hmem]
  · intro hnot
    have hmem : p ∉ ((statusMatrix s.repo).filter
        (fun row => row.head = 0 ∧ row.workdir ≠ 0)).map (fun row => row.filepath) :=
      fun hc => hnot ((untracked_mem s.repo p).mp hc)
    rw [hst p, if_neg hmem]

/-- Witness for C3 at `demo1`, whose single file `glass` is untracked:
the wildcard stages its working content. -/
theorem addDot_stages_untracked_witness :
    alistGet (headTree demo1.repo) "glass" = none
    ∧ (alistGet demo1.repo.workTree "glass").isSome = true
    ∧ alistGet (execAdd ["."] demo1).2.repo.stageTree "glass"
      = alistGet demo1.repo.workTree "glass" :=
  ⟨by decide, by decide,
    (addDot_stages_untracked demo1 "glass").2.2.1 (by decide) (by decide)⟩

theorem buildNodesAux_oids (refs : List GitRef) (cs : List GitCommit) (index : Nat)
    (lanes : List (String × Nat)) (nextLane : Nat) :
    (buildNodesAux refs cs index lanes nextLane).map (fun n => n.oid)
      = cs.map (fun c => c.oid) := by
  induction cs generalizing index lanes nextLane with
  | nil => rfl
  | cons c cs ih => simp [buildNodesAux, ih]

theorem mem_alistSet {α : Type} (m : List (String × α)) (k : String) (v : α)
    (e : String × α) (h : e ∈ alistSet m k v) : e = (k, v) ∨ e ∈ m := by
  induction m with
  | nil => simpa [alistSet] using h
  | cons e0 rest ih =>
    simp only [alistSet] at h
    by_cases h0 : e0.1 = k
    · rw [if_pos h0] at h
      rcases List.mem_cons.mp h with h1 | h1
      · exact Or.inl h1
      · exact Or.inr (List.mem_cons_of_mem _ h1)
    · rw [if_neg h0] at h
      rcases List.mem_cons.mp h with h1 | h1
      · exact Or.inr (h1 ▸ List.mem_cons_self ..)
      · rcases ih h1 with h2 | h2
        · exact Or.inl h2
        · exact Or.inr (List.mem_cons_of_mem _ h2)

theorem commitMap_entries_aux (nodes : List GraphNode) (acc : List (String × GraphNode))
    (S : List GraphNode)
    (hacc : ∀ e ∈ acc, e.2.oid = e.1 ∧ e.2 ∈ S)
    (hn : ∀ n ∈ nodes, n ∈ S) :
    ∀ e ∈ nodes.foldl (fun m n => alistSet m n.oid n) acc, e.2.oid = e.1 ∧ e.2 ∈ S := by
  induction nodes generalizing acc with
  | nil => exact hacc
  | cons n ns ih =>
    refine ih (alistSet acc n.oid n) ?_ (fun x hx => hn x (List.mem_cons_of_mem _ hx))
    intro e he
    rcases mem_alistSet acc n.oid n e he with h1 | h1
    · rw [h1]
      exact ⟨rfl, hn n (List.mem_cons_self ..)⟩
    · exact hacc e h1

theorem commitMap_entries (nodes : List GraphNode) :
    ∀ e ∈ commitMapOf nodes, e.2.oid = e.1 ∧ e.2 ∈ nodes :=
  commitMap_entries_aux nodes [] nodes (by simp) (fun _ hn => hn)

theorem alistSet_presence {α : Type} (m : List (String × α)) (k k2 : String) (v : α)
    (h : (alistGet m k).isSome = true) : (alistGet (alistSet m k2 v) k).isSome = true := by
  by_cases hk : k = k2
  · rw [hk, alistGet_set_self]
    rfl
  · rw [alistGet_set_ne m k2 k v hk]
    exact h

theorem commitMap_isSome_aux (nodes : List GraphNode) (acc : List (String × GraphNode))
    (oid : String)
    (h : oid ∈ nodes.map (fun n => n.oid) ∨ (alistGet acc oid).isSome = true) :
    (alistGet (nodes.foldl (fun m n => alistSet m n.oid n) acc) oid).isSome = true := by
  induction nodes generalizing acc with
  | nil =>
    rcases h with h | h
    · simp at h
    · exact h
  | cons n ns ih =>
    refine ih (alistSet acc n.oid n) ?_
    rcases h with h | h
    · simp only [List.map_cons, List.mem_cons] at h
      rcases h with h | h
      · right
        rw [h, alistGet_set_self]
        rfl
      · exact Or.inl h
    · exact Or.inr (alistSet_presence acc oid n.oid n h)

theorem commitMap_isSome (nodes : List GraphNode) (oid : String)
    (h : oid ∈ nodes.map (fun n => n.oid)) :
    (alistGet (commitMapOf nodes) oid).isSome = true :=
  commitMap_isSome_aux nodes [] oid (Or.inl h)

theorem mem_buildLinks (commits : List GitCommit) (nodes : List GraphNode)
    (hoids : nodes.map (fun n => n.oid) = commits.map (fun c => c.oid)) (e : GraphLink) :
    e ∈ buildLinks commits (commitMapOf nodes)
    ↔ ∃ c ∈ commits, c.oid = e.source ∧ e.target ∈ c.parent
        ∧ ∃ c2 ∈ commits, c2.oid = e.target := by
  unfold buildLinks
  rw [List.mem_flatMap]
  constructor
  · rintro ⟨c, hc, he⟩
    rw [List.mem_filterMap] at he
    obtain ⟨pOid, hp, hf⟩ := he
    rw [Option.map_eq_some'] at hf
    obtain ⟨pn, hpn, hlink⟩ := hf
    have hent := commitMap_entries nodes (pOid, pn) (alistGet_eq_some _ _ _ hpn)
    rw [← hlink]
    refine ⟨c, hc, rfl, ?_, ?_⟩
    · rw [hent.1]
      exact hp
    · have hmem : pn.oid ∈ nodes.map (fun n => n.oid) := List.mem_map_of_mem _ hent.2
      rw [hoids] at hmem
      obtain ⟨c2, hc2, hoid⟩ := List.mem_map.mp hmem
      exact ⟨c2, hc2, hoid⟩
  · rintro ⟨c, hc, hsrc, htgt, c2, hc2, hoid2⟩
    refine ⟨c, hc, ?_⟩
    rw [List.mem_filterMap]
    refine ⟨e.target, htgt, ?_⟩
    have hmem : e.target ∈ nodes.map (fun n => n.oid) := by
      rw [hoids]
      exact List.mem_map.mpr ⟨c2, hc2, hoid2⟩
    obtain ⟨pn, hpn⟩ := Option.isSome_iff_exists.mp (commitMap_isSome nodes e.target hmem)
    have hent := commitMap_entries nodes (e.target, pn) (alistGet_eq_some _ _ _ hpn)
    rw [hpn]
    simp only [Option.map_some']
    cases e
    simp only at hsrc htgt hent ⊢
    rw [hsrc, hent.1]

/-- Claim C8: every edge of the graph model connects two nodes that are
both present in the produced node set, and an edge exists exactly for
each (commit, parent) pair whose parent id is among the loaded commits —
a parent outside the loaded window produces no edge. -/
theorem graph_edges_sound (commits : List GitCommit) (refs : List GitRef) (e : GraphLink) :
    (e ∈ (buildGraph commits refs).2 →
      (∃ n ∈ (buildGraph commits refs).1, n.oid = e.source)
      ∧ ∃ n ∈ (buildGraph commits refs).1, n.oid = e.target)
    ∧ (e ∈ (buildGraph commits refs).2 ↔
      ∃ c ∈ commits, c.oid = e.source ∧ e.target ∈ c.parent
        ∧ ∃ c2 ∈ commits, c2.oid = e.target) := by
  have hoids : (buildNodes commits refs).map (fun n => n.oid) = commits.map (fun c => c.oid) :=
    buildNodesAux_oids refs commits 0 [] 0
  have hiff := mem_buildLinks commits (buildNodes commits refs) hoids e
  have hnode : ∀ x : String, (∃ c ∈ commits, c.oid = x) →
      ∃ n ∈ (buildGraph commits refs).1, n.oid = x := by
    rintro x ⟨c, hc, hx⟩
    have : x ∈ (buildNodes commits refs).map (fun n => n.oid) := by
      rw [hoids]
      exact List.mem_map.mpr ⟨c, hc, hx⟩
    obtain ⟨n, hn, hnx⟩ := List.mem_map.mp this
    exact ⟨n, hn, hnx⟩
  refine ⟨?_, hiff⟩
  intro he
  obtain ⟨c, hc, hsrc, _, c2, hc2, htgt2⟩ := hiff.mp he
  exact ⟨hnode e.source ⟨c, hc, hsrc⟩, hnode e.target ⟨c2, hc2, htgt2⟩⟩

/-- Witness for C8: the two-commit chain produces the edge `c1 → c0`,
whose endpoints both have nodes. -/
theorem graph_edges_sound_witness :
    ({ source := "c1", target := "c0" } : GraphLink) ∈ (buildGraph twoCommits []).2
    ∧ ((∃ n ∈ (buildGraph twoCommits []).1, n.oid = "c1")
      ∧ ∃ n ∈ (buildGraph twoCommits []).1, n.oid = "c0") :=
  ⟨by decide, (graph_edges_sound twoCommits [] { source := "c1", target := "c0" }).1 (by decide)⟩

/-- Claim C6 (amended): `hasCommits:N` evaluates true iff the refreshed
commit list — the log, which is depth-capped at 100 entries — has length
at least `N`; the log length never exceeds 100 even when more commits
are reachable. -/
theorem hasCommits_evaluates_capped_log (r : Repo) (cond : String) (n : Nat)
    (refs : List GitRef) (cur : String)
    (h1 : jsStartsWith cond "hasCommits:" = true)
    (h2 : jsParseInt ((jsSplitChar cond ':').getD 1 "") = some (n : Int)) :
    checkWinCondition cond (gitLog r) refs cur = decide (n ≤ (gitLog r).length)
    ∧ (gitLog r).length ≤ 100 := by
  constructor
  · have hne : cond ≠ "always" := by
      intro hcond
      rw [hcond] at h1
      exact absurd h1 (by decide)
    unfold checkWinCondition
    rw [if_neg hne, if_pos h1, h2]
    simp [ge_iff_le, Int.ofNat_le]
  · exact gitLog_length_le r

/-- Witness for C6 at the one-commit demo repository and `N = 2`. -/
theorem hasCommits_evaluates_capped_log_witness :
    checkWinCondition "hasCommits:2" (gitLog demo3.repo) (getRefs demo3.repo)
      (serviceCurrentBranch demo3.repo) = decide (2 ≤ (gitLog demo3.repo).length)
    ∧ (gitLog demo3.repo).length ≤ 100 :=
  hasCommits_evaluates_capped_log demo3.repo "hasCommits:2" 2 (getRefs demo3.repo)
    (serviceCurrentBranch demo3.repo) (by decide) (by decide)

set_option maxRecDepth 16000 in
/-- Counterexample for C6: a linear history of 101 commits has 101
commits reachable from the current position, yet `hasCommits:101`
evaluates to false on the refreshed state because the log is cut off at
depth 100. -/
theorem hasCommits_depth_cap_counterexample :
    101 ≤ reachableCount (chainRepo 101)
    ∧ (gitLog (chainRepo 101)).length = 100
    ∧ checkWinCondition "hasCommits:101" (gitLog (chainRepo 101)) (getRefs (chainRepo 101))
      (serviceCurrentBranch (chainRepo 101)) = false := by
  refine ⟨by decide, by decide, by decide⟩

end GitGame
